import Mathlib

/-!
Shallow embedding of the Rally campaign tracker's cross-source
reconciliation core: the on-chain transaction aggregator, delta
clamping, the snapshot ring buffer and ARR cascade, ghost-wallet and
approval-rate metrics, on-chain campaign discovery, state loading, and
paginated fetching.  Definitions mirror the JavaScript/TypeScript
source (campaign-tracker script and the Next.js API routes); theorems
settle the specification's claims about them.
-/

namespace RallyTracker

/-- JS `String.prototype.toLowerCase()`: character-wise lowering
(the addresses compared by the tracker are ASCII hex strings). -/
def jsToLower (s : String) : String := ⟨s.data.map Char.toLower⟩

/-- A Blockscout transaction item, with the fields read by
`getCampaignOnChainStats`: `tx.to?.hash`, `tx.from?.hash`, `tx.value`,
`tx.status`, `tx.timestamp` (already converted to epoch milliseconds;
a missing timestamp is `none`). -/
structure Tx where
  toHash : Option String
  fromHash : Option String
  value : Nat
  status : String
  timestamp : Option Nat
  deriving Repr, DecidableEq

/-- The accumulator of `getCampaignOnChainStats`: participant set
(JS `Set`, modelled as an insertion-ordered duplicate-free list),
success/failure counters, wei totals and the first success timestamp. -/
structure OnChainStats where
  participants : List String
  successTxs : Nat
  failedTxs : Nat
  successWei : Nat
  failedWei : Nat
  firstTs : Option Nat
  deriving Repr, DecidableEq

def OnChainStats.init : OnChainStats :=
  { participants := [], successTxs := 0, failedTxs := 0
    successWei := 0, failedWei := 0, firstTs := none }

/-- JS `Set.prototype.add`: append when absent, keep insertion order. -/
def setAdd (s : List String) (x : String) : List String :=
  if x ∈ s then s else s ++ [x]

/-- `if (ts && (!firstTs || ts < firstTs)) firstTs = ts;` — a `none`
or zero timestamp is falsy and ignored; otherwise the running first
timestamp is lowered. -/
def updFirstTs (firstTs ts : Option Nat) : Option Nat :=
  match ts with
  | none => firstTs
  | some t =>
    if t ≠ 0 ∧ (firstTs.getD 0 = 0 ∨ t < firstTs.getD 0) then some t else firstTs

/-- One iteration of the transaction loop of `getCampaignOnChainStats`:
skip zero-value or wrong-destination transactions (case-insensitive
address comparison); status `error` feeds the failure counters, any
other status feeds the success counters, the participant set and the
first success timestamp. -/
def statsStep (campAddr : String) (st : OnChainStats) (tx : Tx) : OnChainStats :=
  let toAddr := jsToLower (tx.toHash.getD "")
  let fromAddr := jsToLower (tx.fromHash.getD "")
  if tx.value = 0 ∨ toAddr ≠ jsToLower campAddr then st
  else if tx.status = "error" then
    { st with failedTxs := st.failedTxs + 1, failedWei := st.failedWei + tx.value }
  else
    { st with participants := setAdd st.participants fromAddr
              successWei := st.successWei + tx.value
              successTxs := st.successTxs + 1
              firstTs := updFirstTs st.firstTs tx.timestamp }

/-- `getCampaignOnChainStats(apiBase, campAddr)` — the aggregation loop
over the fetched transaction list (identical in the tracker script and
both API-route variants). -/
def getCampaignOnChainStats (campAddr : String) (txs : List Tx) : OnChainStats :=
  txs.foldl (statsStep campAddr) OnChainStats.init

/-- A transaction is counted at all: non-zero value and destination
equal to the campaign address, case-insensitively. -/
def txCounted (campAddr : String) (tx : Tx) : Prop :=
  tx.value ≠ 0 ∧ jsToLower (tx.toHash.getD "") = jsToLower campAddr

instance (campAddr : String) (tx : Tx) : Decidable (txCounted campAddr tx) := by
  unfold txCounted; infer_instance

/-- A counted transaction whose status is not `error`. -/
def txSuccess (campAddr : String) (tx : Tx) : Prop :=
  txCounted campAddr tx ∧ tx.status ≠ "error"

instance (campAddr : String) (tx : Tx) : Decidable (txSuccess campAddr tx) := by
  unfold txSuccess; infer_instance

/-- A counted transaction whose status is `error`. -/
def txFailed (campAddr : String) (tx : Tx) : Prop :=
  txCounted campAddr tx ∧ tx.status = "error"

instance (campAddr : String) (tx : Tx) : Decidable (txFailed campAddr tx) := by
  unfold txFailed; infer_instance

/-- Lower-cased senders of the successful counted transactions, in order. -/
def successFroms (campAddr : String) (txs : List Tx) : List String :=
  (txs.filter (fun tx => txSuccess campAddr tx)).map (fun tx => jsToLower (tx.fromHash.getD ""))

/-- Timestamps present on the successful counted transactions, in order. -/
def successTimestamps (campAddr : String) (txs : List Tx) : List Nat :=
  (txs.filter (fun tx => txSuccess campAddr tx)).filterMap Tx.timestamp

lemma statsStep_of_success (c : String) (st : OnChainStats) (tx : Tx)
    (h : txSuccess c tx) :
    statsStep c st tx =
      { st with participants := setAdd st.participants (jsToLower (tx.fromHash.getD ""))
                successWei := st.successWei + tx.value
                successTxs := st.successTxs + 1
                firstTs := updFirstTs st.firstTs tx.timestamp } := by
  obtain ⟨⟨hv, hto⟩, hst⟩ := h
  unfold statsStep
  rw [if_neg (by tauto), if_neg hst]

lemma statsStep_of_failed (c : String) (st : OnChainStats) (tx : Tx)
    (h : txFailed c tx) :
    statsStep c st tx =
      { st with failedTxs := st.failedTxs + 1, failedWei := st.failedWei + tx.value } := by
  obtain ⟨⟨hv, hto⟩, hst⟩ := h
  unfold statsStep
  rw [if_neg (by tauto), if_pos hst]

lemma statsStep_of_skip (c : String) (st : OnChainStats) (tx : Tx)
    (hs : ¬ txSuccess c tx) (hf : ¬ txFailed c tx) :
    statsStep c st tx = st := by
  unfold txSuccess txCounted at hs
  unfold txFailed txCounted at hf
  unfold statsStep
  rw [if_pos (by tauto)]

lemma foldl_stats_successTxs (c : String) (txs : List Tx) (st : OnChainStats) :
    (txs.foldl (statsStep c) st).successTxs
      = st.successTxs + txs.countP (fun tx => decide (txSuccess c tx)) := by
  induction txs generalizing st with
  | nil => simp
  | cons tx txs ih =>
    rw [List.foldl_cons, ih, List.countP_cons]
    by_cases hs : txSuccess c tx
    · rw [statsStep_of_success c st tx hs]; simp [hs]; omega
    · by_cases hf : txFailed c tx
      · rw [statsStep_of_failed c st tx hf]; simp [hs]
      · rw [statsStep_of_skip c st tx hs hf]; simp [hs]

lemma foldl_stats_failedTxs (c : String) (txs : List Tx) (st : OnChainStats) :
    (txs.foldl (statsStep c) st).failedTxs
      = st.failedTxs + txs.countP (fun tx => decide (txFailed c tx)) := by
  induction txs generalizing st with
  | nil => simp
  | cons tx txs ih =>
    rw [List.foldl_cons, ih, List.countP_cons]
    by_cases hf : txFailed c tx
    · have hs : ¬ txSuccess c tx := by unfold txSuccess txFailed at *; tauto
      rw [statsStep_of_failed c st tx hf]; simp [hf]; omega
    · by_cases hs : txSuccess c tx
      · rw [statsStep_of_success c st tx hs]; simp [hf]
      · rw [statsStep_of_skip c st tx hs hf]; simp [hf]

lemma foldl_stats_successWei (c : String) (txs : List Tx) (st : OnChainStats) :
    (txs.foldl (statsStep c) st).successWei
      = st.successWei + ((txs.filter fun tx => decide (txSuccess c tx)).map Tx.value).sum := by
  induction txs generalizing st with
  | nil => simp
  | cons tx txs ih =>
    rw [List.foldl_cons, ih, List.filter_cons]
    by_cases hs : txSuccess c tx
    · rw [statsStep_of_success c st tx hs]; simp [hs]; omega
    · by_cases hf : txFailed c tx
      · rw [statsStep_of_failed c st tx hf]; simp [hs]
      · rw [statsStep_of_skip c st tx hs hf]; simp [hs]

lemma foldl_stats_failedWei (c : String) (txs : List Tx) (st : OnChainStats) :
    (txs.foldl (statsStep c) st).failedWei
      = st.failedWei + ((txs.filter fun tx => decide (txFailed c tx)).map Tx.value).sum := by
  induction txs generalizing st with
  | nil => simp
  | cons tx txs ih =>
    rw [List.foldl_cons, ih, List.filter_cons]
    by_cases hf : txFailed c tx
    · have hs : ¬ txSuccess c tx := by unfold txSuccess txFailed at *; tauto
      rw [statsStep_of_failed c st tx hf]; simp [hf]; omega
    · by_cases hs : txSuccess c tx
      · rw [statsStep_of_success c st tx hs]; simp [hf]
      · rw [statsStep_of_skip c st tx hs hf]; simp [hf]

lemma foldl_stats_participants (c : String) (txs : List Tx) (st : OnChainStats) :
    (txs.foldl (statsStep c) st).participants
      = (successFroms c txs).foldl setAdd st.participants := by
  induction txs generalizing st with
  | nil => simp [successFroms]
  | cons tx txs ih =>
    rw [List.foldl_cons, ih]
    unfold successFroms
    rw [List.filter_cons]
    by_cases hs : txSuccess c tx
    · rw [statsStep_of_success c st tx hs]; simp [hs]
    · by_cases hf : txFailed c tx
      · rw [statsStep_of_failed c st tx hf]; simp [hs]
      · rw [statsStep_of_skip c st tx hs hf]; simp [hs]

lemma foldl_stats_firstTs (c : String) (txs : List Tx) (st : OnChainStats) :
    (txs.foldl (statsStep c) st).firstTs
      = ((txs.filter fun tx => decide (txSuccess c tx)).map Tx.timestamp).foldl
          updFirstTs st.firstTs := by
  induction txs generalizing st with
  | nil => simp
  | cons tx txs ih =>
    rw [List.foldl_cons, ih, List.filter_cons]
    by_cases hs : txSuccess c tx
    · rw [statsStep_of_success c st tx hs]; simp [hs]
    · by_cases hf : txFailed c tx
      · rw [statsStep_of_failed c st tx hf]; simp [hs]
      · rw [statsStep_of_skip c st tx hs hf]; simp [hs]

lemma setAdd_nodup (s : List String) (x : String) (h : s.Nodup) : (setAdd s x).Nodup := by
  unfold setAdd
  split_ifs with hx
  · exact h
  · simpa using List.Nodup.append h (List.nodup_singleton x) (by simpa using hx)

lemma setAdd_toFinset (s : List String) (x : String) :
    (setAdd s x).toFinset = insert x s.toFinset := by
  unfold setAdd
  split_ifs with hx
  · ext a; simp; intro ha; subst ha; simpa using hx
  · ext a; simp [or_comm]

lemma foldl_setAdd_nodup (l s : List String) (h : s.Nodup) : (l.foldl setAdd s).Nodup := by
  induction l generalizing s with
  | nil => exact h
  | cons x l ih => exact ih _ (setAdd_nodup s x h)

lemma foldl_setAdd_toFinset (l s : List String) :
    (l.foldl setAdd s).toFinset = s.toFinset ∪ l.toFinset := by
  induction l generalizing s with
  | nil => simp
  | cons x l ih =>
    rw [List.foldl_cons, ih, setAdd_toFinset]
    ext a
    simp
    try tauto

/-- The running-minimum specification of `updFirstTs` on positive timestamps. -/
def minOpt (acc : Option Nat) (t : Nat) : Option Nat :=
  match acc with
  | none => some t
  | some a => some (min a t)

lemma updFirstTs_pos (acc : Option Nat) (t : Nat) (ht : 0 < t)
    (hacc : ∀ a, acc = some a → 0 < a) :
    updFirstTs acc (some t) = minOpt acc t := by
  cases acc with
  | none => simp [updFirstTs, minOpt, Nat.pos_iff_ne_zero.1 ht]
  | some a =>
    have ha : 0 < a := hacc a rfl
    simp only [updFirstTs, minOpt, Option.getD_some]
    split_ifs with h
    · rcases h with ⟨-, h | h⟩
      · omega
      · rw [Nat.min_eq_right (le_of_lt h)]
    · push_neg at h
      obtain ⟨h1, h2⟩ := h (Nat.pos_iff_ne_zero.1 ht)
      rw [Nat.min_eq_left (by omega)]

lemma minOpt_pos (acc : Option Nat) (t : Nat) (ht : 0 < t)
    (hacc : ∀ a, acc = some a → 0 < a) :
    ∀ a, minOpt acc t = some a → 0 < a := by
  cases acc with
  | none => intro a ha; simp [minOpt] at ha; omega
  | some b =>
    intro a ha
    have hb : 0 < b := hacc b rfl
    simp [minOpt] at ha
    omega

lemma foldl_updFirstTs_eq_minOpt (l : List (Option Nat)) (acc : Option Nat)
    (hl : ∀ o ∈ l, ∀ t, o = some t → 0 < t)
    (hacc : ∀ a, acc = some a → 0 < a) :
    l.foldl updFirstTs acc = (l.filterMap id).foldl minOpt acc := by
  induction l generalizing acc with
  | nil => rfl
  | cons o l ih =>
    cases o with
    | none =>
      rw [List.foldl_cons, List.filterMap_cons]
      exact ih acc (fun o ho t het => hl o (by simp [ho]) t het) hacc
    | some t =>
      have ht : 0 < t := hl (some t) (by simp) t rfl
      rw [List.foldl_cons, List.filterMap_cons, updFirstTs_pos acc t ht hacc]
      simp only [id, List.foldl_cons]
      exact ih (minOpt acc t) (fun o ho u heu => hl o (by simp [ho]) u heu)
        (minOpt_pos acc t ht hacc)

lemma foldl_minOpt_some (ts : List Nat) (a : Nat) :
    ts.foldl minOpt (some a) = some (ts.foldl min a) := by
  induction ts generalizing a with
  | nil => rfl
  | cons t ts ih => simp [minOpt, ih]

lemma foldl_min_mem (ts : List Nat) (a : Nat) :
    ts.foldl min a = a ∨ ts.foldl min a ∈ ts := by
  induction ts generalizing a with
  | nil => left; rfl
  | cons t ts ih =>
    rw [List.foldl_cons]
    rcases ih (min a t) with h | h
    · rcases Nat.le_total a t with hat | hat
      · left; rw [h, Nat.min_eq_left hat]
      · right; rw [h, Nat.min_eq_right hat]; exact List.mem_cons_self t ts
    · right; exact List.mem_cons_of_mem t h

lemma foldl_min_le (ts : List Nat) (a : Nat) :
    ts.foldl min a ≤ a ∧ ∀ u ∈ ts, ts.foldl min a ≤ u := by
  induction ts generalizing a with
  | nil => simp
  | cons t ts ih =>
    rw [List.foldl_cons]
    obtain ⟨h1, h2⟩ := ih (min a t)
    refine ⟨le_trans h1 (Nat.min_le_left a t), ?_⟩
    intro u hu
    rcases List.mem_cons.1 hu with rfl | hu
    · exact le_trans h1 (Nat.min_le_right a u)
    · exact h2 u hu

lemma foldl_minOpt_none_eq_none_iff (ts : List Nat) :
    ts.foldl minOpt none = none ↔ ts = [] := by
  cases ts with
  | nil => simp
  | cons t ts =>
    rw [List.foldl_cons, show minOpt none t = some t from rfl, foldl_minOpt_some]
    simp

lemma foldl_minOpt_none_min (ts : List Nat) (t : Nat)
    (h : ts.foldl minOpt none = some t) :
    t ∈ ts ∧ ∀ u ∈ ts, t ≤ u := by
  cases ts with
  | nil => simp [List.foldl_nil] at h
  | cons u us =>
    rw [List.foldl_cons, show minOpt none u = some u from rfl, foldl_minOpt_some] at h
    have ht := Option.some.inj h
    subst ht
    constructor
    · rcases foldl_min_mem us u with hm | hm
      · rw [hm]; exact List.mem_cons_self u us
      · exact List.mem_cons_of_mem u hm
    · intro v hv
      obtain ⟨h1, h2⟩ := foldl_min_le us u
      rcases List.mem_cons.1 hv with rfl | hv
      · exact h1
      · exact h2 v hv

lemma getStats_firstTs_eq (c : String) (txs : List Tx)
    (hts : ∀ tx ∈ txs, ∀ t, tx.timestamp = some t → 0 < t) :
    (getCampaignOnChainStats c txs).firstTs
      = (successTimestamps c txs).foldl minOpt none := by
  unfold getCampaignOnChainStats
  rw [foldl_stats_firstTs]
  rw [show OnChainStats.init.firstTs = none from rfl]
  rw [foldl_updFirstTs_eq_minOpt _ _ ?pos (by simp)]
  case pos =>
    intro o ho t het
    subst het
    obtain ⟨tx, htx, hmap⟩ := List.mem_map.1 ho
    exact hts tx (List.mem_of_mem_filter htx) t hmap
  rw [List.filterMap_map, Function.id_comp]
  rfl

/-- C1: for every campaign address and transaction list, the on-chain
aggregator counts a transaction only if its value is non-zero and its
destination equals the campaign address case-insensitively; each
counted transaction lands in exactly one of success/failure (`error`
status feeds `failedTxs`/`failedWei`, every other status feeds
`successTxs`/`successWei`, the participant set of distinct lower-cased
senders, and `firstTs`, the minimum successful timestamp). -/
theorem c1_onchain_aggregation (c : String) (txs : List Tx)
    (hts : ∀ tx ∈ txs, ∀ t, tx.timestamp = some t → 0 < t) :
    (getCampaignOnChainStats c txs).successTxs
        = txs.countP (fun tx => decide (txSuccess c tx)) ∧
    (getCampaignOnChainStats c txs).failedTxs
        = txs.countP (fun tx => decide (txFailed c tx)) ∧
    (∀ tx, txCounted c tx → (txSuccess c tx ↔ ¬ txFailed c tx)) ∧
    (∀ tx, ¬ txCounted c tx → ¬ txSuccess c tx ∧ ¬ txFailed c tx) ∧
    (getCampaignOnChainStats c txs).successWei
        = ((txs.filter fun tx => decide (txSuccess c tx)).map Tx.value).sum ∧
    (getCampaignOnChainStats c txs).failedWei
        = ((txs.filter fun tx => decide (txFailed c tx)).map Tx.value).sum ∧
    (getCampaignOnChainStats c txs).participants.length
        = (successFroms c txs).dedup.length ∧
    ((getCampaignOnChainStats c txs).firstTs = none ↔ successTimestamps c txs = []) ∧
    (∀ t, (getCampaignOnChainStats c txs).firstTs = some t →
      t ∈ successTimestamps c txs ∧ ∀ u ∈ successTimestamps c txs, t ≤ u) := by
  refine ⟨?_, ?_, fun tx hc => ?_, fun tx hc => ?_, ?_, ?_, ?_, ?_, fun t ht => ?_⟩
  · simpa [OnChainStats.init] using foldl_stats_successTxs c txs OnChainStats.init
  · simpa [OnChainStats.init] using foldl_stats_failedTxs c txs OnChainStats.init
  · unfold txSuccess txFailed; tauto
  · unfold txSuccess txFailed; tauto
  · simpa [OnChainStats.init] using foldl_stats_successWei c txs OnChainStats.init
  · simpa [OnChainStats.init] using foldl_stats_failedWei c txs OnChainStats.init
  · unfold getCampaignOnChainStats
    rw [foldl_stats_participants]
    have hnd : ((successFroms c txs).foldl setAdd OnChainStats.init.participants).Nodup :=
      foldl_setAdd_nodup _ _ (by simp [OnChainStats.init])
    rw [← List.toFinset_card_of_nodup hnd, foldl_setAdd_toFinset, ← List.card_toFinset]
    simp [OnChainStats.init]
  · rw [getStats_firstTs_eq c txs hts]
    exact foldl_minOpt_none_eq_none_iff _
  · rw [getStats_firstTs_eq c txs hts] at ht
    exact foldl_minOpt_none_min _ _ ht

/-- The mixed transaction list of the classification test: for campaign
`0xa`, one successful payment of 100, one reverted payment of 50, one
wrong-destination transfer and one zero-value call. -/
def c1ExampleTxs : List Tx :=
  [ { toHash := some "0xA", fromHash := some "0xS1", value := 100,
      status := "ok", timestamp := some 5000 },
    { toHash := some "0xa", fromHash := some "0xs2", value := 50,
      status := "error", timestamp := some 4000 },
    { toHash := some "0xb", fromHash := some "0xs3", value := 10,
      status := "ok", timestamp := some 3000 },
    { toHash := some "0xa", fromHash := some "0xs4", value := 0,
      status := "ok", timestamp := some 2000 } ]

/-- Witness for C1 at the spec's concrete example: the aggregate for
campaign `0xa` is participants 1, successTxs 1, failedTxs 1,
successWei 100, failedWei 50. -/
theorem c1_onchain_aggregation_witness :
    (getCampaignOnChainStats "0xa" c1ExampleTxs).participants.length = 1 ∧
    (getCampaignOnChainStats "0xa" c1ExampleTxs).successTxs = 1 ∧
    (getCampaignOnChainStats "0xa" c1ExampleTxs).failedTxs = 1 ∧
    (getCampaignOnChainStats "0xa" c1ExampleTxs).successWei = 100 ∧
    (getCampaignOnChainStats "0xa" c1ExampleTxs).failedWei = 50 := by
  obtain ⟨h1, h2, -, -, h5, h6, h7, -, -⟩ :=
    c1_onchain_aggregation "0xa" c1ExampleTxs (by decide)
  exact ⟨h7.trans (by decide), h1.trans (by decide), h2.trans (by decide),
         h5.trans (by decide), h6.trans (by decide)⟩

/-- `const newParticipants = Math.max(0, oc.participants - (prev.participants ?? 0));`
(campaign-tracker `main`, deltas vs last run). -/
def newParticipants (cur prev : Nat) : Int := max 0 ((cur : Int) - (prev : Int))

/-- `const newSuccessWei = BigInt(oc.successWei) - prevSuccessWei;` followed by
`Number(newSuccessWei < 0n ? 0n : newSuccessWei)` — the wei delta clamped at
zero (campaign-tracker `main`). -/
def newSuccessWeiClamped (cur prev : Int) : Int :=
  let newSuccessWei := cur - prev
  if newSuccessWei < 0 then 0 else newSuccessWei

/-- `const newRevenueEth = Math.max(0, oc.successEth - prevSuccessEth);`
(JSON tracker `main`, deltas vs last run). -/
def newRevenueEth (cur prev : ℚ) : ℚ := max 0 (cur - prev)

/-- C2: every delta against the persisted previous totals is the clamped
difference: non-negative always, the true difference when the current
total is at least the previous one, and exactly zero when the second
run reports a smaller raw total. -/
theorem c2_monotonic_deltas (curP prevP : Nat) (curW prevW : Int) (curE prevE : ℚ) :
    (0 ≤ newParticipants curP prevP ∧
      (prevP ≤ curP → newParticipants curP prevP = (curP : Int) - prevP) ∧
      (curP < prevP → newParticipants curP prevP = 0)) ∧
    (0 ≤ newSuccessWeiClamped curW prevW ∧
      (prevW ≤ curW → newSuccessWeiClamped curW prevW = curW - prevW) ∧
      (curW < prevW → newSuccessWeiClamped curW prevW = 0)) ∧
    (0 ≤ newRevenueEth curE prevE ∧
      (prevE ≤ curE → newRevenueEth curE prevE = curE - prevE) ∧
      (curE < prevE → newRevenueEth curE prevE = 0)) := by
  refine ⟨⟨le_max_left 0 _, fun h => ?_, fun h => ?_⟩,
          ⟨?_, fun h => ?_, fun h => ?_⟩,
          ⟨le_max_left 0 _, fun h => ?_, fun h => ?_⟩⟩
  · exact max_eq_right (by omega)
  · exact max_eq_left (by omega)
  · unfold newSuccessWeiClamped; dsimp only; split_ifs with h <;> omega
  · unfold newSuccessWeiClamped; dsimp only; split_ifs with h' <;> omega
  · unfold newSuccessWeiClamped; dsimp only; split_ifs with h' <;> omega
  · exact max_eq_right (by linarith)
  · exact max_eq_left (by linarith)

/-- Witness for C2: a growing participant count yields the true
difference (10 − 3 = 7) and a crafted wei regression (40 after 100)
clamps to zero. -/
theorem c2_monotonic_deltas_witness :
    newParticipants 10 3 = 7 ∧ newSuccessWeiClamped 40 100 = 0 := by
  obtain ⟨⟨-, hp, -⟩, -, -⟩ := c2_monotonic_deltas 10 3 0 0 0 0
  obtain ⟨-, ⟨-, -, hw⟩, -⟩ := c2_monotonic_deltas 0 0 40 100 0 0
  exact ⟨(hp (by decide)).trans (by decide), hw (by decide)⟩

/-- A `{ts, totalFeesUsd}` entry of the snapshot ring buffer
(timestamps in epoch milliseconds, revenue in USD). -/
structure Snapshot where
  ts : ℚ
  totalFeesUsd : ℚ
  deriving Repr, DecidableEq

/-- `addSnapshot(state, totalFeesUsd)`: push `{ts: Date.now(), totalFeesUsd}`,
then keep only entries with `s.ts >= cutoff` where
`cutoff = ts - 8 * 24 * 3600 * 1000`. -/
def addSnapshot (snapshots : List Snapshot) (now totalFeesUsd : ℚ) : List Snapshot :=
  let withNew := snapshots ++ [{ ts := now, totalFeesUsd := totalFeesUsd }]
  let cutoff := now - 8 * 24 * 3600 * 1000
  withNew.filter (fun s => cutoff ≤ s.ts)

/-- C4: after the snapshot-append step, the retained series is exactly
the previous entries still within the 8-day window followed by the one
new `{timestamp, totalRevenueUsd}` entry; every retained entry is within
8 days of now, entries older than 8 days are absent, and the new entry
is present. -/
theorem c4_snapshot_retention (snapshots : List Snapshot) (now fees : ℚ) :
    addSnapshot snapshots now fees
      = snapshots.filter (fun s => now - 8 * 24 * 3600 * 1000 ≤ s.ts)
          ++ [{ ts := now, totalFeesUsd := fees }] ∧
    (∀ s ∈ addSnapshot snapshots now fees, now - s.ts ≤ 8 * 24 * 3600 * 1000) ∧
    (∀ s ∈ snapshots, s.ts < now - 8 * 24 * 3600 * 1000 →
      s ∉ addSnapshot snapshots now fees) ∧
    ({ ts := now, totalFeesUsd := fees } : Snapshot) ∈ addSnapshot snapshots now fees := by
  have hnew : now - 8 * 24 * 3600 * 1000 ≤ now := by linarith
  have h1 : addSnapshot snapshots now fees
      = snapshots.filter (fun s => now - 8 * 24 * 3600 * 1000 ≤ s.ts)
          ++ [{ ts := now, totalFeesUsd := fees }] := by
    unfold addSnapshot
    rw [List.filter_append]
    congr 1
    simp only [List.filter_cons, List.filter_nil]
    rw [if_pos (decide_eq_true hnew)]
  refine ⟨h1, ?_, ?_, ?_⟩
  · intro s hs
    rw [h1, List.mem_append] at hs
    rcases hs with hs | hs
    · have := of_decide_eq_true (List.mem_filter.1 hs).2
      linarith
    · rcases List.mem_singleton.1 hs with rfl
      show now - now ≤ 8 * 24 * 3600 * 1000
      norm_num
  · intro s hs hlt hmem
    rw [h1, List.mem_append] at hmem
    rcases hmem with hmem | hmem
    · have := of_decide_eq_true (List.mem_filter.1 hmem).2
      linarith
    · rcases List.mem_singleton.1 hmem with rfl
      simp at hlt
      linarith
  · rw [h1, List.mem_append]
    exact Or.inr (List.mem_singleton.2 rfl)

/-- Witness for C4: with the 8-day window (691,200,000 ms), a snapshot
at ts 0 is dropped when a run happens at ts 10^9 while one at 5·10^8 is
retained, followed by the new entry. -/
theorem c4_snapshot_retention_witness :
    addSnapshot [{ ts := 0, totalFeesUsd := 1 }, { ts := 500000000, totalFeesUsd := 2 }]
        1000000000 3
      = [{ ts := 500000000, totalFeesUsd := 2 }, { ts := 1000000000, totalFeesUsd := 3 }] ∧
    ({ ts := 0, totalFeesUsd := 1 } : Snapshot)
      ∉ addSnapshot [{ ts := 0, totalFeesUsd := 1 }, { ts := 500000000, totalFeesUsd := 2 }]
          1000000000 3 := by
  have h := c4_snapshot_retention
    [{ ts := 0, totalFeesUsd := 1 }, { ts := 500000000, totalFeesUsd := 2 }] 1000000000 3
  refine ⟨h.1.trans ?_, h.2.2.1 _ (by simp) (by norm_num)⟩
  norm_num [List.filter_cons]

/-- `ghostWallets = Math.max(0, stats.participants - users)`
(API route, per-campaign). -/
def ghostWallets (participants users : Nat) : Int :=
  max 0 ((participants : Int) - (users : Int))

/-- `const ghost = stats.participants - stats.rallyUsers; if (ghost > 0) totalGhostWallets += ghost;`
(API route grand totals; the JSON tracker accumulates identically). -/
def totalGhostWallets (rows : List (Nat × Nat)) : Int :=
  rows.foldl (fun acc pu =>
    let ghost : Int := (pu.1 : Int) - (pu.2 : Int)
    if 0 < ghost then acc + ghost else acc) 0

/-- `const gap = rallyUsers - oc.participants;` raised as a funnel-leak
issue when `rallyUsers > 0 && oc.participants > 0` and `gap > 5`
(campaign-tracker issues block). -/
def funnelLeakFlag (participants rallyUsers : Nat) : Bool :=
  decide ((0 < rallyUsers ∧ 0 < participants) ∧ 5 < (rallyUsers : Int) - (participants : Int))

lemma totalGhost_fold (rows : List (Nat × Nat)) (acc : Int) :
    rows.foldl (fun acc pu =>
        let ghost : Int := (pu.1 : Int) - (pu.2 : Int)
        if 0 < ghost then acc + ghost else acc) acc
      = acc + (rows.map (fun pu => max 0 ((pu.1 : Int) - (pu.2 : Int)))).sum := by
  induction rows generalizing acc with
  | nil => simp
  | cons r rows ih =>
    rw [List.foldl_cons, ih, List.map_cons, List.sum_cons]
    dsimp only
    split_ifs with h
    · rw [max_eq_right (by omega)]; ring
    · rw [max_eq_left (by omega)]; ring

/-- C5: the per-campaign ghost-wallet count is the difference of
on-chain participants and platform users floored at zero (10/3 ↦ 7,
2/5 ↦ 0), the aggregate total sums only the positive per-campaign
differences, and the signed gap is separately flagged as a funnel leak
exactly when platform users exceed on-chain payers by more than 5. -/
theorem c5_ghost_wallets (p u : Nat) (rows : List (Nat × Nat)) :
    ghostWallets 10 3 = 7 ∧
    ghostWallets 2 5 = 0 ∧
    0 ≤ ghostWallets p u ∧
    (u ≤ p → ghostWallets p u = (p : Int) - (u : Int)) ∧
    (p ≤ u → ghostWallets p u = 0) ∧
    totalGhostWallets rows = (rows.map (fun pu => max 0 ((pu.1 : Int) - (pu.2 : Int)))).sum ∧
    (funnelLeakFlag p u = true ↔ 0 < u ∧ 0 < p ∧ 5 < (u : Int) - (p : Int)) := by
  refine ⟨by decide, by decide, le_max_left 0 _, fun h => max_eq_right (by omega),
          fun h => max_eq_left (by omega),
          by unfold totalGhostWallets; rw [totalGhost_fold, zero_add], ?_⟩
  unfold funnelLeakFlag
  simp [and_assoc]

/-- Witness for C5: the concrete ghost-wallet computations 10/3 ↦ 7 and
2/5 ↦ 0, and the signed gap −3 at (2, 5) not reaching the funnel-leak
tolerance. -/
theorem c5_ghost_wallets_witness :
    ghostWallets 10 3 = 7 ∧ ghostWallets 2 5 = 0 ∧ funnelLeakFlag 2 5 = false := by
  obtain ⟨h1, h2, -, h4, -, -, hf⟩ := c5_ghost_wallets 2 5 []
  refine ⟨h1, h2, ?_⟩
  rw [Bool.eq_false_iff]
  intro hcontra
  obtain ⟨-, -, hgap⟩ := hf.1 hcontra
  omega

/-- `const approvalRate = (approved > 0 && oc.successTxs > 0) ? approved / oc.successTxs : null;`
(JSON tracker, per campaign). -/
def approvalRate (approved successTxs : Nat) : Option ℚ :=
  if 0 < approved ∧ 0 < successTxs then some ((approved : ℚ) / (successTxs : ℚ)) else none

/-- `if (rallyApproved > 0 && oc.successTxs > 0) { const approvalRate = rallyApproved / oc.successTxs; if (approvalRate < 0.5) issues.push(...) }`
(campaign-tracker low-approval issue). -/
def lowApprovalFlag (approved successTxs : Nat) : Bool :=
  decide ((0 < approved ∧ 0 < successTxs) ∧ (approved : ℚ) / (successTxs : ℚ) < 1/2)

/-- C9 counterexample: for a campaign with `successTxCount = 4 > 0` but
`approved = 0`, the code computes no approval rate and raises no
low-approval flag, although the claim's rate 0/4 = 0 is below 0.5. -/
theorem c9_counterexample :
    (0 : Nat) < 4 ∧ approvalRate 0 4 = none ∧ lowApprovalFlag 0 4 = false := by
  refine ⟨by decide, ?_, ?_⟩
  · unfold approvalRate
    rw [if_neg (by omega)]
  · unfold lowApprovalFlag
    simp

/-- C9 amended: the approval rate is `approved / successTxCount` and the
low-approval flag is raised exactly when that rate is below 0.5, but
only when both `approved > 0` and `successTxCount > 0`; when either is
zero no rate is computed and no flag is raised. -/
theorem c9_approval_rate (approved successTxs : Nat) :
    (0 < approved → 0 < successTxs →
      approvalRate approved successTxs = some ((approved : ℚ) / (successTxs : ℚ)) ∧
      (lowApprovalFlag approved successTxs = true ↔
        (approved : ℚ) / (successTxs : ℚ) < 1/2)) ∧
    (approved = 0 ∨ successTxs = 0 →
      approvalRate approved successTxs = none ∧
      lowApprovalFlag approved successTxs = false) := by
  constructor
  · intro ha hs
    refine ⟨by unfold approvalRate; rw [if_pos ⟨ha, hs⟩], ?_⟩
    unfold lowApprovalFlag
    simp [ha, hs]
  · intro h
    have hn : ¬ (0 < approved ∧ 0 < successTxs) := by omega
    refine ⟨by unfold approvalRate; rw [if_neg hn], ?_⟩
    unfold lowApprovalFlag
    simp [hn]

/-- Witness for C9: with 1 approved submission over 4 paid transactions
the rate 1/4 is computed and the low-approval flag is raised. -/
theorem c9_approval_rate_witness :
    approvalRate 1 4 = some (1/4 : ℚ) ∧ lowApprovalFlag 1 4 = true := by
  obtain ⟨h, -⟩ := c9_approval_rate 1 4
  obtain ⟨hr, hf⟩ := h (by decide) (by decide)
  refine ⟨hr.trans (by norm_num), hf.2 (by norm_num)⟩

/-- The persisted state file as `loadState` can encounter it: absent,
present but not valid JSON, or parsed state (`S` abstracts the parsed
value). -/
inductive StateFile (S : Type) where
  | missing
  | corrupt
  | valid (st : S)

/-- `loadState()` of the campaign tracker:
`existsSync(STATE_FILE) ? JSON.parse(readFileSync(STATE_FILE, 'utf8')) : {}`.
A missing file yields the empty state `{}`; `JSON.parse` throws on a
file that does not parse, modelled as `Except.error`. -/
def loadState {S : Type} (empty : S) : StateFile S → Except Unit S
  | .missing => .ok empty
  | .corrupt => .error ()
  | .valid st => .ok st

/-- The run driver: `main` starts with `const state = loadState();` and
the rest of the run is a function of the loaded state; an exception
from `loadState` propagates out of `main`. -/
def runTracker {S O : Type} (empty : S) (file : StateFile S) (body : S → O) : Except Unit O :=
  (loadState empty file).map body

/-- `main().catch(err => { console.error('FATAL:', err); process.exit(1); });` —
an error escaping `main` terminates the process with exit code 1. -/
def exitCode {O : Type} : Except Unit O → Nat
  | .ok _ => 0
  | .error _ => 1

/-- C7 counterexample: an unreadable (unparsable) state file makes
`JSON.parse` throw inside `main`, which reaches the top-level catch and
terminates the run fatally (exit code 1) — the run does not proceed
with first-run semantics. -/
theorem c7_counterexample :
    exitCode (runTracker (0 : Nat) StateFile.corrupt (fun st => st + 1)) = 1 ∧
    runTracker (0 : Nat) StateFile.corrupt (fun st => st + 1) ≠ Except.ok 1 := by
  constructor
  · rfl
  · intro h
    simp [runTracker, loadState, Except.map] at h

/-- C7 amended: only a missing state file is treated as the empty
initial state with first-run semantics (the run completes normally on
the empty state); a present but unparsable state file raises a parse
error that escapes to the top-level handler and terminates the run
fatally with exit code 1. -/
theorem c7_state_loading {S O : Type} (empty : S) (body : S → O) :
    runTracker empty StateFile.missing body = Except.ok (body empty) ∧
    (∀ st, runTracker empty (StateFile.valid st) body = Except.ok (body st)) ∧
    exitCode (runTracker empty StateFile.missing body) = 0 ∧
    exitCode (runTracker empty StateFile.corrupt body) = 1 := by
  exact ⟨rfl, fun st => rfl, rfl, rfl⟩

/-- One page of a paginated Blockscout listing as consumed by
`getAllPages`: the `items` array and whether `next_page_params` was
non-null. The source is the sequence of pages that successive cursor
URLs return. -/
structure Page (α : Type) where
  items : List α
  hasNext : Bool

/-- Loop body of the bounded `getAllPages(baseUrl, maxPages)` (API
route, `maxPages = 20`; JSON tracker, `maxPages = 5`):
`while (url && pages < maxPages) { ... pages++ }`, returning the
concatenated items and the number of pages fetched. -/
def getAllPagesGo {α : Type} (src : Nat → Page α) (maxPages pages : Nat)
    (all : List α) : List α × Nat :=
  if h : pages < maxPages then
    let d := src pages
    if d.hasNext then getAllPagesGo src maxPages (pages + 1) (all ++ d.items)
    else (all ++ d.items, pages + 1)
  else (all, pages)
termination_by maxPages - pages

/-- `getAllPages(baseUrl, maxPages)` with the loop counters at their
initial values. -/
def getAllPagesBounded {α : Type} (src : Nat → Page α) (maxPages : Nat) : List α × Nat :=
  getAllPagesGo src maxPages 0 []

/-- The state of the campaign tracker's unbounded `getAllPages(baseUrl)`
(`while (url) { ... }`, no page bound) after at most `fuel` loop
iterations: `finished = false` means the loop was still running. -/
structure FetchTrace (α : Type) where
  all : List α
  pagesFetched : Nat
  finished : Bool

/-- Fuel-indexed unfolding of the campaign tracker's unbounded
`getAllPages` loop. -/
def getAllPagesUnboundedGo {α : Type} (src : Nat → Page α) :
    Nat → Nat → List α → FetchTrace α
  | 0, pages, all => { all := all, pagesFetched := pages, finished := false }
  | fuel + 1, pages, all =>
    let d := src pages
    if d.hasNext then getAllPagesUnboundedGo src fuel (pages + 1) (all ++ d.items)
    else { all := all ++ d.items, pagesFetched := pages + 1, finished := true }

/-- The campaign tracker's `getAllPages(baseUrl)` observed for `fuel`
iterations. -/
def getAllPagesUnbounded {α : Type} (src : Nat → Page α) (fuel : Nat) : FetchTrace α :=
  getAllPagesUnboundedGo src fuel 0 []

/-- A paginated source that always supplies a next cursor. -/
def alwaysNextSrc : Nat → Page Unit := fun _ => { items := [], hasNext := true }

/-- C8 counterexample: the campaign tracker's `getAllPages` has no
`maxPages` parameter; on a stream that always supplies a next cursor it
is still running after 25 fetched pages — more than any configured
bound (5 or 20) — so the number of pages is not capped there. -/
theorem c8_counterexample :
    (getAllPagesUnbounded alwaysNextSrc 25).finished = false ∧
    (getAllPagesUnbounded alwaysNextSrc 25).pagesFetched = 25 := by
  constructor <;> rfl

lemma getAllPagesGo_pages_le {α : Type} (src : Nat → Page α) (maxPages : Nat) :
    ∀ fuel pages all, maxPages - pages ≤ fuel → pages ≤ maxPages →
      (getAllPagesGo src maxPages pages all).2 ≤ maxPages := by
  intro fuel
  induction fuel with
  | zero =>
    intro pages all hfuel hle
    rw [getAllPagesGo]
    have hnlt : ¬ pages < maxPages := by omega
    rw [dif_neg hnlt]
    exact hle
  | succ fuel ih =>
    intro pages all hfuel hle
    rw [getAllPagesGo]
    by_cases hlt : pages < maxPages
    · rw [dif_pos hlt]
      dsimp only
      by_cases hnext : (src pages).hasNext = true
      · rw [if_pos hnext]
        exact ih (pages + 1) _ (by omega) (by omega)
      · rw [if_neg hnext]
        show pages + 1 ≤ maxPages
        omega
    · rw [dif_neg hlt]
      exact hle

lemma getAllPagesUnboundedGo_always_running {α : Type} (src : Nat → Page α)
    (hsrc : ∀ n, (src n).hasNext = true) :
    ∀ fuel pages all, (getAllPagesUnboundedGo src fuel pages all).finished = false := by
  intro fuel
  induction fuel with
  | zero => intro pages all; rfl
  | succ fuel ih =>
    intro pages all
    unfold getAllPagesUnboundedGo
    rw [if_pos (hsrc pages)]
    exact ih _ _

/-- C8 amended: the two `getAllPages` variants that take a `maxPages`
parameter never fetch more than `maxPages` pages, so they terminate
even on a stream that always supplies a next cursor; the campaign
tracker's variant follows the cursor with no page bound, and on a
stream that always supplies a next cursor it never finishes, at any
number of observed iterations. -/
theorem c8_pagination_bound {α : Type} (src : Nat → Page α) (maxPages : Nat)
    (hsrc : ∀ n, (src n).hasNext = true) :
    (getAllPagesBounded src maxPages).2 ≤ maxPages ∧
    (∀ fuel, (getAllPagesUnbounded src fuel).finished = false) := by
  constructor
  · exact getAllPagesGo_pages_le src maxPages maxPages 0 [] (by omega) (by omega)
  · intro fuel
    exact getAllPagesUnboundedGo_always_running src hsrc fuel 0 []

/-- Witness for C8 at the always-next source: the API route's bound of
20 pages is respected while the unbounded tracker loop is still running
after 25 iterations. -/
theorem c8_pagination_bound_witness :
    (getAllPagesBounded alwaysNextSrc 20).2 ≤ 20 ∧
    (getAllPagesUnbounded alwaysNextSrc 25).finished = false := by
  obtain ⟨h1, h2⟩ := c8_pagination_bound alwaysNextSrc 20 (fun n => rfl)
  exact ⟨h1, h2 25⟩

/-- `const DAY_MS = 86_400_000;` -/
def DAY_MS : ℚ := 86400000

/-- The best-snapshot scan of `snapshotDelta`: starting from
`best = null`, replace `best` whenever a snapshot is strictly closer to
the target time. -/
def snapshotBest (snapshots : List Snapshot) (target : ℚ) : Option Snapshot :=
  snapshots.foldl
    (fun best s =>
      match best with
      | none => some s
      | some b => if |s.ts - target| < |b.ts - target| then some s else best)
    none

/-- `snapshotDelta(state, msAgo)`: null with fewer than two snapshots;
otherwise the snapshot closest to `Date.now() - msAgo`, rejected
(null) when its distance exceeds `msAgo * 0.2`. -/
def snapshotDelta (snapshots : List Snapshot) (now msAgo : ℚ) : Option Snapshot :=
  if snapshots.length < 2 then none
  else
    let target := now - msAgo
    match snapshotBest snapshots target with
    | none => none
    | some b => if msAgo * (1/5) < |b.ts - target| then none else some b

/-- The four ARR estimation methods of the grand-summary cascade. -/
inductive ArrMethod where
  | sinceLaunch
  | window24h
  | window7d
  | fallback1h
  deriving Repr, DecidableEq

/-- `if (earliestTs && totalRevenue > 0) { ... if (ageDays >= 0.5) arrParts.push(since-launch) }`:
the since-launch entry of `arrParts`, value `d * 365` with
`d = totalRevenue / ageDays`. -/
def sinceLaunchPart (earliestTs : Option ℚ) (totalRevenue nowMs : ℚ) : List (ArrMethod × ℚ) :=
  match earliestTs with
  | none => []
  | some ts =>
    if ts ≠ 0 ∧ 0 < totalRevenue then
      if 1/2 ≤ (nowMs - ts) / DAY_MS then
        [(ArrMethod.sinceLaunch, totalRevenue / ((nowMs - ts) / DAY_MS) * 365)]
      else []
    else []

/-- `const snap24 = snapshotDelta(state, DAY_MS); if (snap24) { const d = totalRevenue - snap24.totalFeesUsd; if (d > 0) arrParts.push(...) }`. -/
def window24hPart (totalRevenue nowMs : ℚ) (snapshots : List Snapshot) :
    List (ArrMethod × ℚ) :=
  match snapshotDelta snapshots nowMs DAY_MS with
  | none => []
  | some snap =>
    if 0 < totalRevenue - snap.totalFeesUsd then
      [(ArrMethod.window24h, (totalRevenue - snap.totalFeesUsd) * 365)]
    else []

/-- `const snap7d = snapshotDelta(state, 7 * DAY_MS); if (snap7d) { const d = (totalRevenue - snap7d.totalFeesUsd) / 7; if (d > 0) arrParts.push(...) }`. -/
def window7dPart (totalRevenue nowMs : ℚ) (snapshots : List Snapshot) :
    List (ArrMethod × ℚ) :=
  match snapshotDelta snapshots nowMs (7 * DAY_MS) with
  | none => []
  | some snap =>
    if 0 < (totalRevenue - snap.totalFeesUsd) / 7 then
      [(ArrMethod.window7d, (totalRevenue - snap.totalFeesUsd) / 7 * 365)]
    else []

/-- The full `arrParts` list of the grand summary: since-launch, 24h
and 7d entries in order, then
`if (arrParts.length === 0 && newSuccessUsd > 0)` the 1h-extrapolation
fallback `d = newSuccessUsd * 24`, `arr = d * 365`. -/
def arrParts (earliestTs : Option ℚ) (totalRevenue nowMs newSuccessUsd : ℚ)
    (snapshots : List Snapshot) : List (ArrMethod × ℚ) :=
  let parts := sinceLaunchPart earliestTs totalRevenue nowMs
    ++ window24hPart totalRevenue nowMs snapshots
    ++ window7dPart totalRevenue nowMs snapshots
  if parts = [] ∧ 0 < newSuccessUsd then
    [(ArrMethod.fallback1h, newSuccessUsd * 24 * 365)]
  else parts

/-- `const arrStr = arrParts.length > 0 ? arrParts[0] : null;` — the
first available method is the reported ARR estimate. -/
def arrSelected (earliestTs : Option ℚ) (totalRevenue nowMs newSuccessUsd : ℚ)
    (snapshots : List Snapshot) : Option (ArrMethod × ℚ) :=
  (arrParts earliestTs totalRevenue nowMs newSuccessUsd snapshots).head?

/-- Validity of the since-launch estimate: a truthy earliest timestamp,
positive revenue, and age of at least half a day. -/
def sinceLaunchValid (earliestTs : Option ℚ) (totalRevenue nowMs : ℚ) : Prop :=
  ∃ ts, earliestTs = some ts ∧ ts ≠ 0 ∧ 0 < totalRevenue ∧ 1/2 ≤ (nowMs - ts) / DAY_MS

/-- Validity of the 24h estimate in the code: a usable snapshot near
now − 24h AND a positive revenue delta against it. -/
def window24hValid (totalRevenue nowMs : ℚ) (snapshots : List Snapshot) : Prop :=
  ∃ snap, snapshotDelta snapshots nowMs DAY_MS = some snap ∧
    0 < totalRevenue - snap.totalFeesUsd

/-- Validity of the 7d estimate in the code: a usable snapshot near
now − 7d AND a positive weekly revenue delta against it. -/
def window7dValid (totalRevenue nowMs : ℚ) (snapshots : List Snapshot) : Prop :=
  ∃ snap, snapshotDelta snapshots nowMs (7 * DAY_MS) = some snap ∧
    0 < (totalRevenue - snap.totalFeesUsd) / 7

lemma sinceLaunchPart_eq_nil (earliestTs : Option ℚ) (totalRevenue nowMs : ℚ)
    (h : ¬ sinceLaunchValid earliestTs totalRevenue nowMs) :
    sinceLaunchPart earliestTs totalRevenue nowMs = [] := by
  unfold sinceLaunchPart
  cases earliestTs with
  | none => rfl
  | some ts =>
    dsimp only
    split_ifs with h1 h2
    · exact absurd ⟨ts, rfl, h1.1, h1.2, h2⟩ h
    · rfl
    · rfl

lemma sinceLaunchPart_of_valid (earliestTs : Option ℚ) (totalRevenue nowMs ts : ℚ)
    (hts : earliestTs = some ts) (h0 : ts ≠ 0) (hrev : 0 < totalRevenue)
    (hage : 1/2 ≤ (nowMs - ts) / DAY_MS) :
    sinceLaunchPart earliestTs totalRevenue nowMs
      = [(ArrMethod.sinceLaunch, totalRevenue / ((nowMs - ts) / DAY_MS) * 365)] := by
  subst hts
  unfold sinceLaunchPart
  dsimp only
  rw [if_pos ⟨h0, hrev⟩, if_pos hage]

lemma window24hPart_eq_nil (totalRevenue nowMs : ℚ) (snapshots : List Snapshot)
    (h : ¬ window24hValid totalRevenue nowMs snapshots) :
    window24hPart totalRevenue nowMs snapshots = [] := by
  unfold window24hPart
  cases hd : snapshotDelta snapshots nowMs DAY_MS with
  | none => rfl
  | some snap =>
    dsimp only
    rw [if_neg]
    intro hpos
    exact h ⟨snap, hd, hpos⟩

lemma window24hPart_of_valid (totalRevenue nowMs : ℚ) (snapshots : List Snapshot)
    (snap : Snapshot) (hd : snapshotDelta snapshots nowMs DAY_MS = some snap)
    (hpos : 0 < totalRevenue - snap.totalFeesUsd) :
    window24hPart totalRevenue nowMs snapshots
      = [(ArrMethod.window24h, (totalRevenue - snap.totalFeesUsd) * 365)] := by
  unfold window24hPart
  rw [hd]
  dsimp only
  exact if_pos hpos

lemma window7dPart_eq_nil (totalRevenue nowMs : ℚ) (snapshots : List Snapshot)
    (h : ¬ window7dValid totalRevenue nowMs snapshots) :
    window7dPart totalRevenue nowMs snapshots = [] := by
  unfold window7dPart
  cases hd : snapshotDelta snapshots nowMs (7 * DAY_MS) with
  | none => rfl
  | some snap =>
    dsimp only
    rw [if_neg]
    intro hpos
    exact h ⟨snap, hd, hpos⟩

lemma window7dPart_of_valid (totalRevenue nowMs : ℚ) (snapshots : List Snapshot)
    (snap : Snapshot) (hd : snapshotDelta snapshots nowMs (7 * DAY_MS) = some snap)
    (hpos : 0 < (totalRevenue - snap.totalFeesUsd) / 7) :
    window7dPart totalRevenue nowMs snapshots
      = [(ArrMethod.window7d, (totalRevenue - snap.totalFeesUsd) / 7 * 365)] := by
  unfold window7dPart
  rw [hd]
  dsimp only
  exact if_pos hpos

/-- C3 amended: the reported ARR estimate is the first entry of the
priority cascade, where — unlike the claim's wording — the 24h and 7d
window methods require not only a usable snapshot near the target time
but also a positive revenue delta against it; with that addition the
cascade order is since-launch, 24h, 7d, then the 1h-extrapolation
fallback on this run's positive revenue delta. -/
theorem c3_arr_cascade (earliestTs : Option ℚ) (totalRevenue nowMs newSuccessUsd : ℚ)
    (snapshots : List Snapshot) :
    (∀ ts, earliestTs = some ts → ts ≠ 0 → 0 < totalRevenue →
      1/2 ≤ (nowMs - ts) / DAY_MS →
      arrSelected earliestTs totalRevenue nowMs newSuccessUsd snapshots
        = some (ArrMethod.sinceLaunch, totalRevenue / ((nowMs - ts) / DAY_MS) * 365)) ∧
    (¬ sinceLaunchValid earliestTs totalRevenue nowMs →
      ∀ snap, snapshotDelta snapshots nowMs DAY_MS = some snap →
        0 < totalRevenue - snap.totalFeesUsd →
        arrSelected earliestTs totalRevenue nowMs newSuccessUsd snapshots
          = some (ArrMethod.window24h, (totalRevenue - snap.totalFeesUsd) * 365)) ∧
    (¬ sinceLaunchValid earliestTs totalRevenue nowMs →
      ¬ window24hValid totalRevenue nowMs snapshots →
      ∀ snap, snapshotDelta snapshots nowMs (7 * DAY_MS) = some snap →
        0 < (totalRevenue - snap.totalFeesUsd) / 7 →
        arrSelected earliestTs totalRevenue nowMs newSuccessUsd snapshots
          = some (ArrMethod.window7d, (totalRevenue - snap.totalFeesUsd) / 7 * 365)) ∧
    (¬ sinceLaunchValid earliestTs totalRevenue nowMs →
      ¬ window24hValid totalRevenue nowMs snapshots →
      ¬ window7dValid totalRevenue nowMs snapshots →
      0 < newSuccessUsd →
      arrSelected earliestTs totalRevenue nowMs newSuccessUsd snapshots
        = some (ArrMethod.fallback1h, newSuccessUsd * 24 * 365)) := by
  refine ⟨fun ts hts h0 hrev hage => ?_, fun h1 snap hd hpos => ?_,
          fun h1 h2 snap hd hpos => ?_, fun h1 h2 h3 hpos => ?_⟩
  · unfold arrSelected arrParts
    rw [sinceLaunchPart_of_valid earliestTs totalRevenue nowMs ts hts h0 hrev hage]
    simp
  · unfold arrSelected arrParts
    rw [sinceLaunchPart_eq_nil earliestTs totalRevenue nowMs h1,
        window24hPart_of_valid totalRevenue nowMs snapshots snap hd hpos]
    simp
  · unfold arrSelected arrParts
    rw [sinceLaunchPart_eq_nil earliestTs totalRevenue nowMs h1,
        window24hPart_eq_nil totalRevenue nowMs snapshots h2,
        window7dPart_of_valid totalRevenue nowMs snapshots snap hd hpos]
    simp
  · unfold arrSelected arrParts
    rw [sinceLaunchPart_eq_nil earliestTs totalRevenue nowMs h1,
        window24hPart_eq_nil totalRevenue nowMs snapshots h2,
        window7dPart_eq_nil totalRevenue nowMs snapshots h3]
    rw [if_pos ⟨rfl, hpos⟩]
    rfl

/-- The snapshot series of the C3 counterexample: one snapshot exactly
at now − 24h whose recorded revenue equals the current total, and an
older one; no snapshot usable for the 7d window. -/
def c3Snaps : List Snapshot :=
  [{ ts := 777600000, totalFeesUsd := 100 }, { ts := 691200000, totalFeesUsd := 90 }]

/-- C3 counterexample: at now = 864000000 with total revenue 100, no
since-launch age, and a stored snapshot exactly at now − 24h (well
within the 20% tolerance), the claim reports the annualized 24h delta;
the code skips the 24h method because its delta is 100 − 100 = 0 (not
positive) and reports the 1h-extrapolation fallback instead. -/
theorem c3_counterexample :
    snapshotDelta c3Snaps 864000000 DAY_MS
      = some { ts := 777600000, totalFeesUsd := 100 } ∧
    ¬ sinceLaunchValid none 100 864000000 ∧
    arrSelected none 100 864000000 5 c3Snaps
      = some (ArrMethod.fallback1h, 43800) := by
  have hd24 : snapshotDelta c3Snaps 864000000 DAY_MS
      = some { ts := 777600000, totalFeesUsd := 100 } := by
    unfold snapshotDelta snapshotBest c3Snaps
    norm_num [List.foldl, DAY_MS]
  have hd7 : snapshotDelta c3Snaps 864000000 (7 * DAY_MS) = none := by
    unfold snapshotDelta snapshotBest c3Snaps
    norm_num [List.foldl, DAY_MS]
  refine ⟨hd24, ?_, ?_⟩
  · rintro ⟨ts, hts, -⟩
    exact Option.noConfusion hts
  · unfold arrSelected arrParts
    have h1 : sinceLaunchPart none 100 864000000 = [] := rfl
    have h24 : window24hPart 100 864000000 c3Snaps = [] := by
      unfold window24hPart
      rw [hd24]
      dsimp only
      rw [if_neg]
      norm_num
    have h7 : window7dPart 100 864000000 c3Snaps = [] := by
      unfold window7dPart
      rw [hd7]
    rw [h1, h24, h7]
    norm_num

/-- Witness for C3 (amended cascade) at a concrete input where the
since-launch method is valid: earliest first success one day ago and
total revenue 100 select the since-launch estimate 100/1 × 365 = 36500,
even with no snapshots. -/
theorem c3_arr_cascade_witness :
    arrSelected (some 777600000) 100 864000000 0 []
      = some (ArrMethod.sinceLaunch, 36500) := by
  have h := (c3_arr_cascade (some 777600000) 100 864000000 0 []).1 777600000 rfl
    (by norm_num) (by norm_num) (by norm_num [DAY_MS])
  rw [h]
  norm_num [DAY_MS]

lemma sinceLaunchPart_method (earliestTs : Option ℚ) (totalRevenue nowMs : ℚ) :
    ∀ x ∈ sinceLaunchPart earliestTs totalRevenue nowMs, x.1 = ArrMethod.sinceLaunch := by
  unfold sinceLaunchPart
  cases earliestTs with
  | none => simp
  | some ts =>
    dsimp only
    split_ifs <;> simp

/-- C10: with fewer than two stored snapshots, `snapshotDelta` returns
null for every target window, and consequently neither a 24-hour nor a
7-day entry can appear in the ARR cascade of such a run — even if a
single snapshot lies exactly at the target time. -/
theorem c10_snapshot_delta_two_needed (snapshots : List Snapshot) (now msAgo : ℚ)
    (h : snapshots.length < 2) :
    snapshotDelta snapshots now msAgo = none ∧
    (∀ earliestTs totalRevenue newSuccessUsd v,
      (ArrMethod.window24h, v)
        ∉ arrParts earliestTs totalRevenue now newSuccessUsd snapshots) ∧
    (∀ earliestTs totalRevenue newSuccessUsd v,
      (ArrMethod.window7d, v)
        ∉ arrParts earliestTs totalRevenue now newSuccessUsd snapshots) := by
  have hnone : ∀ m : ℚ, snapshotDelta snapshots now m = none := by
    intro m
    unfold snapshotDelta
    rw [if_pos h]
  have h24 : ∀ tot : ℚ, window24hPart tot now snapshots = [] := by
    intro tot
    unfold window24hPart
    rw [hnone DAY_MS]
  have h7 : ∀ tot : ℚ, window7dPart tot now snapshots = [] := by
    intro tot
    unfold window7dPart
    rw [hnone (7 * DAY_MS)]
  refine ⟨hnone msAgo, ?_, ?_⟩
  · intro e tot nsu v hmem
    unfold arrParts at hmem
    rw [h24 tot, h7 tot] at hmem
    simp only [List.append_nil] at hmem
    split_ifs at hmem with hc
    · simp at hmem
    · have := sinceLaunchPart_method e tot now _ hmem
      simp at this
  · intro e tot nsu v hmem
    unfold arrParts at hmem
    rw [h24 tot, h7 tot] at hmem
    simp only [List.append_nil] at hmem
    split_ifs at hmem with hc
    · simp at hmem
    · have := sinceLaunchPart_method e tot now _ hmem
      simp at this

/-- Witness for C10: a run whose state holds a single snapshot exactly
at now − 24h still gets `null` from `snapshotDelta`, and no 24h entry
appears in the cascade. -/
theorem c10_snapshot_delta_two_needed_witness :
    snapshotDelta [{ ts := 777600000, totalFeesUsd := 50 }] 864000000 DAY_MS = none ∧
    (ArrMethod.window24h, (50 : ℚ) * 365)
      ∉ arrParts none 100 864000000 0 [{ ts := 777600000, totalFeesUsd := 50 }] := by
  obtain ⟨h1, h2, -⟩ := c10_snapshot_delta_two_needed
    [{ ts := 777600000, totalFeesUsd := 50 }] 864000000 DAY_MS (by simp)
  exact ⟨h1, h2 none 100 0 _⟩

/-- A Blockscout event-log item as read by discovery: `topics` and the
`data` payload. -/
structure Log where
  topics : List String
  data : String
  deriving Repr, DecidableEq

/-- The two recognized CampaignCreated event-topic hashes. -/
def CAMPAIGN_TOPICS : List String :=
  ["0xbb6e1a036316f8a54a4010c72f0adc5e7b714b15cff9045f280f3080b5fb5a60",
   "0x6056366dba45431fd6a8854ad9f2594942b02c4f2c3f6fbc329b3079b027b8b4"]

/-- JS `String.prototype.slice(a, b)` over character positions. -/
def jsSlice (s : String) (a b : Nat) : String := ⟨(s.data.drop a).take (b - a)⟩

/-- JS `s.slice(-n)`: the last `n` characters. -/
def jsSliceLast (s : String) (n : Nat) : String := ⟨s.data.drop (s.data.length - n)⟩

/-- `'0x' + '0'.repeat(40)` — the discarded zero address. -/
def zeroAddr : String := "0x" ++ ⟨List.replicate 40 '0'⟩

/-- `('0x' + (log.topics[1] ?? '').slice(-40)).toLowerCase()` — the
campaign address from the first indexed topic. -/
def extractAddr (log : Log) : String :=
  jsToLower ("0x" ++ jsSliceLast (log.topics.getD 1 "") 40)

/-- The content-source extraction from `log.data` (third 32-byte word):
`log.data.slice(130, 194)`, skipped when the payload is shorter than
194 characters or the word is all zeroes. -/
def extractIC (log : Log) : Option String :=
  if 194 ≤ log.data.data.length then
    let icRaw := jsSlice log.data 130 194
    if icRaw ≠ "" ∧ icRaw ≠ ⟨List.replicate 64 '0'⟩ then
      some (jsToLower ("0x" ++ jsSliceLast icRaw 40))
    else none
  else none

/-- A discovered campaign: `{ address, ic }`. -/
structure OnChainCampaign where
  address : String
  ic : Option String
  deriving Repr, DecidableEq

/-- JS `Map.prototype.set` on an insertion-ordered association list
with unique keys: replace in place when the key exists (keeping its
position), append otherwise. -/
def mapSet : List (String × OnChainCampaign) → String → OnChainCampaign →
    List (String × OnChainCampaign)
  | [], k, v => [(k, v)]
  | p :: m, k, v => if p.1 = k then (k, v) :: m else p :: mapSet m k v

/-- JS `Map.prototype.get` (`undefined` modelled as `none`). -/
def mapGet (m : List (String × OnChainCampaign)) (k : String) : Option OnChainCampaign :=
  (m.find? (fun p => p.1 = k)).map Prod.snd

/-- One log of the `discoverOnChainCampaigns` loop: filter by the
CampaignCreated topics, extract the lower-cased campaign address from
topic 1, discard the empty and zero addresses, extract the optional
content-source address from the data payload, and
`if (!campaignMap.has(addr) || (ic && !campaignMap.get(addr)?.ic)) campaignMap.set(addr, { address: addr, ic })`. -/
def discoverStep (m : List (String × OnChainCampaign)) (log : Log) :
    List (String × OnChainCampaign) :=
  if log.topics.getD 0 "" ∈ CAMPAIGN_TOPICS then
    let addr := extractAddr log
    if addr ≠ "" ∧ addr ≠ zeroAddr then
      let ic := extractIC log
      if mapGet m addr = none ∨ (ic.isSome ∧ (mapGet m addr).bind OnChainCampaign.ic = none)
      then mapSet m addr { address := addr, ic := ic }
      else m
    else m
  else m

/-- `discoverOnChainCampaigns()`: fold every factory's log list into
the campaign map and return `[...campaignMap.values()]`. -/
def discoverOnChainCampaigns (factoryLogs : List (List Log)) : List OnChainCampaign :=
  (factoryLogs.foldl (fun m logs => logs.foldl discoverStep m) []).map Prod.snd

/-- The logs that discover address `addr`, in scan order. -/
def matchingLogs (addr : String) (logs : List Log) : List Log :=
  logs.filter (fun log => log.topics.getD 0 "" ∈ CAMPAIGN_TOPICS ∧ extractAddr log = addr)

/-- The first non-null content-source address ever seen for `addr`. -/
def firstIC (addr : String) (logs : List Log) : Option String :=
  ((matchingLogs addr logs).filterMap extractIC).head?

lemma mapGet_mapSet_self (m : List (String × OnChainCampaign)) (k : String)
    (v : OnChainCampaign) : mapGet (mapSet m k v) k = some v := by
  induction m with
  | nil => simp [mapSet, mapGet, List.find?]
  | cons p m ih =>
    unfold mapSet
    by_cases h : p.1 = k
    · rw [if_pos h]
      simp [mapGet, List.find?]
    · rw [if_neg h]
      unfold mapGet at ih ⊢
      rw [List.find?_cons_of_neg _ (by simpa using h)]
      exact ih

lemma mapGet_mapSet_ne (m : List (String × OnChainCampaign)) (k k' : String)
    (v : OnChainCampaign) (h : k' ≠ k) : mapGet (mapSet m k v) k' = mapGet m k' := by
  induction m with
  | nil =>
    simp only [mapSet, mapGet, List.find?_nil, Option.map_none]
    rw [List.find?_cons_of_neg _ (by simpa using h.symm)]
    simp
  | cons p m ih =>
    unfold mapSet
    by_cases hp : p.1 = k
    · rw [if_pos hp]
      unfold mapGet
      rw [List.find?_cons_of_neg _ (by simp [h.symm]),
          List.find?_cons_of_neg _ (by simp [hp, h.symm])]
    · rw [if_neg hp]
      by_cases hp' : p.1 = k'
      · unfold mapGet
        rw [List.find?_cons_of_pos _ (by simpa using hp'),
            List.find?_cons_of_pos _ (by simpa using hp')]
      · unfold mapGet at ih ⊢
        rw [List.find?_cons_of_neg _ (by simpa using hp'),
            List.find?_cons_of_neg _ (by simpa using hp')]
        exact ih

lemma mapGet_eq_none_iff (m : List (String × OnChainCampaign)) (k : String) :
    mapGet m k = none ↔ k ∉ m.map Prod.fst := by
  induction m with
  | nil => simp [mapGet]
  | cons p m ih =>
    unfold mapGet at ih ⊢
    by_cases hp : p.1 = k
    · rw [List.find?_cons_of_pos _ (by simpa using hp)]
      simp [hp]
    · rw [List.find?_cons_of_neg _ (by simpa using hp)]
      simp only [List.map_cons, List.mem_cons]
      rw [ih]
      constructor
      · intro hk hmem
        rcases hmem with hmem | hmem
        · exact hp hmem.symm
        · exact hk hmem
      · intro hk hmem
        exact hk (Or.inr hmem)

lemma mapSet_map_fst_mem (m : List (String × OnChainCampaign)) (k : String)
    (v : OnChainCampaign) (h : k ∈ m.map Prod.fst) :
    (mapSet m k v).map Prod.fst = m.map Prod.fst := by
  induction m with
  | nil => simp at h
  | cons p m ih =>
    unfold mapSet
    by_cases hp : p.1 = k
    · rw [if_pos hp]
      simp [hp]
    · rw [if_neg hp]
      simp only [List.map_cons]
      rw [ih]
      simp only [List.map_cons, List.mem_cons] at h
      rcases h with h | h
      · exact absurd h.symm hp
      · exact h

lemma mapSet_map_fst_not_mem (m : List (String × OnChainCampaign)) (k : String)
    (v : OnChainCampaign) (h : k ∉ m.map Prod.fst) :
    (mapSet m k v).map Prod.fst = m.map Prod.fst ++ [k] := by
  induction m with
  | nil => simp [mapSet]
  | cons p m ih =>
    unfold mapSet
    simp only [List.map_cons, List.mem_cons] at h
    push_neg at h
    rw [if_neg (fun hp => h.1 hp.symm)]
    simp only [List.map_cons, List.cons_append, List.cons.injEq]
    exact ⟨by trivial, ih h.2⟩

lemma mem_mapSet (m : List (String × OnChainCampaign)) (k : String)
    (v : OnChainCampaign) (q : String × OnChainCampaign) (hq : q ∈ mapSet m k v) :
    q ∈ m ∨ q = (k, v) := by
  induction m with
  | nil => simp [mapSet] at hq; simp [hq]
  | cons p m ih =>
    unfold mapSet at hq
    by_cases hp : p.1 = k
    · rw [if_pos hp] at hq
      rcases List.mem_cons.1 hq with rfl | hq
      · exact Or.inr rfl
      · exact Or.inl (List.mem_cons_of_mem p hq)
    · rw [if_neg hp] at hq
      rcases List.mem_cons.1 hq with rfl | hq
      · exact Or.inl (List.mem_cons_self q m)
      · rcases ih hq with h | h
        · exact Or.inl (List.mem_cons_of_mem p h)
        · exact Or.inr h

lemma mapGet_of_mem (m : List (String × OnChainCampaign))
    (hnd : (m.map Prod.fst).Nodup) (p : String × OnChainCampaign) (hp : p ∈ m) :
    mapGet m p.1 = some p.2 := by
  induction m with
  | nil => simp at hp
  | cons q m ih =>
    rcases List.mem_cons.1 hp with rfl | hp
    · unfold mapGet
      rw [List.find?_cons_of_pos _ (by simp)]
      rfl
    · have hq : q.1 ≠ p.1 := by
        intro he
        have : p.1 ∈ m.map Prod.fst := List.mem_map_of_mem Prod.fst hp
        rw [← he] at this
        exact (List.nodup_cons.1 (by simpa using hnd)).1 this
      unfold mapGet
      rw [List.find?_cons_of_neg _ (by simpa using hq)]
      exact ih (List.nodup_cons.1 (by simpa using hnd)).2 hp

lemma mapGet_address (m : List (String × OnChainCampaign))
    (hm : ∀ p ∈ m, p.2.address = p.1) (a : String) (v : OnChainCampaign)
    (h : mapGet m a = some v) : v.address = a := by
  unfold mapGet at h
  obtain ⟨p, hp1, hp2⟩ := Option.map_eq_some'.1 h
  have hpm : p ∈ m := List.mem_of_find?_eq_some hp1
  have hpa : p.1 = a := by simpa using List.find?_some hp1
  rw [← hp2, hm p hpm, hpa]

lemma discoverStep_addr (m : List (String × OnChainCampaign)) (log : Log)
    (hm : ∀ p ∈ m, p.2.address = p.1) :
    ∀ p ∈ discoverStep m log, p.2.address = p.1 := by
  unfold discoverStep
  dsimp only
  split_ifs with h1 h2 h3
  · intro p hp
    rcases mem_mapSet _ _ _ p hp with hh | hh
    · exact hm p hh
    · subst hh; rfl
  · exact hm
  · exact hm
  · exact hm

lemma matchingLogs_cons_pos (a : String) (log : Log) (logs : List Log)
    (h1 : log.topics.getD 0 "" ∈ CAMPAIGN_TOPICS) (h2 : extractAddr log = a) :
    matchingLogs a (log :: logs) = log :: matchingLogs a logs := by
  unfold matchingLogs
  rw [List.filter_cons, if_pos (by simp only [decide_eq_true_eq]; exact ⟨h1, h2⟩)]

lemma matchingLogs_cons_neg (a : String) (log : Log) (logs : List Log)
    (h : ¬ (log.topics.getD 0 "" ∈ CAMPAIGN_TOPICS ∧ extractAddr log = a)) :
    matchingLogs a (log :: logs) = matchingLogs a logs := by
  unfold matchingLogs
  rw [List.filter_cons, if_neg (by simp only [decide_eq_true_eq]; exact h)]

lemma firstIC_cons_pos_some (a : String) (log : Log) (logs : List Log) (i : String)
    (h1 : log.topics.getD 0 "" ∈ CAMPAIGN_TOPICS) (h2 : extractAddr log = a)
    (hic : extractIC log = some i) : firstIC a (log :: logs) = some i := by
  unfold firstIC
  rw [matchingLogs_cons_pos a log logs h1 h2, List.filterMap_cons, hic]
  rfl

lemma firstIC_cons_pos_none (a : String) (log : Log) (logs : List Log)
    (h1 : log.topics.getD 0 "" ∈ CAMPAIGN_TOPICS) (h2 : extractAddr log = a)
    (hic : extractIC log = none) : firstIC a (log :: logs) = firstIC a logs := by
  unfold firstIC
  rw [matchingLogs_cons_pos a log logs h1 h2, List.filterMap_cons, hic]

lemma firstIC_cons_neg (a : String) (log : Log) (logs : List Log)
    (h : ¬ (log.topics.getD 0 "" ∈ CAMPAIGN_TOPICS ∧ extractAddr log = a)) :
    firstIC a (log :: logs) = firstIC a logs := by
  unfold firstIC
  rw [matchingLogs_cons_neg a log logs h]

/-- The intended value of the discovery map at key `a` after scanning
`logs` starting from a map whose value at `a` was `old`: an existing
non-null content-source is kept, a null one is filled by the first
non-null content-source among `a`'s remaining logs, and an absent key
appears exactly when some log matches, carrying the first non-null
content-source ever seen. -/
def lookupSpec (old : Option OnChainCampaign) (a : String) (logs : List Log) :
    Option OnChainCampaign :=
  match old with
  | some v => some { address := a, ic := v.ic.orElse (fun _ => firstIC a logs) }
  | none =>
    if matchingLogs a logs = [] then none
    else some { address := a, ic := firstIC a logs }

lemma lookupSpec_congr (old : Option OnChainCampaign) (a : String) (log : Log)
    (logs : List Log)
    (h : ¬ (log.topics.getD 0 "" ∈ CAMPAIGN_TOPICS ∧ extractAddr log = a)) :
    lookupSpec old a (log :: logs) = lookupSpec old a logs := by
  cases old with
  | some v =>
    simp only [lookupSpec]
    rw [firstIC_cons_neg a log logs h]
  | none =>
    simp only [lookupSpec]
    rw [firstIC_cons_neg a log logs h, matchingLogs_cons_neg a log logs h]

lemma discover_fold_mapGet (logs : List Log) :
    ∀ (m : List (String × OnChainCampaign)), (∀ p ∈ m, p.2.address = p.1) →
    ∀ a : String, a ≠ "" → a ≠ zeroAddr →
      mapGet (logs.foldl discoverStep m) a = lookupSpec (mapGet m a) a logs := by
  induction logs with
  | nil =>
    intro m hm a ha1 ha2
    rw [List.foldl_nil]
    cases hg : mapGet m a with
    | none =>
      simp only [lookupSpec]
      rw [if_pos (show matchingLogs a [] = [] from rfl)]
    | some v =>
      have hva : v.address = a := mapGet_address m hm a v hg
      simp only [lookupSpec]
      cases v with
      | mk addr ic =>
        simp only at hva
        subst hva
        cases ic <;> rfl
  | cons log logs ih =>
    intro m hm a ha1 ha2
    rw [List.foldl_cons]
    by_cases ht : log.topics.getD 0 "" ∈ CAMPAIGN_TOPICS
    · by_cases ha : extractAddr log = a
      · cases hg : mapGet m a with
        | none =>
          have hstep : discoverStep m log
              = mapSet m a { address := a, ic := extractIC log } := by
            unfold discoverStep
            rw [if_pos ht]
            dsimp only
            rw [ha, if_pos ⟨ha1, ha2⟩, hg, if_pos (Or.inl rfl)]
          rw [hstep,
              ih (mapSet m a { address := a, ic := extractIC log })
                (fun p hp => by
                  rcases mem_mapSet _ _ _ p hp with hh | hh
                  · exact hm p hh
                  · subst hh; rfl)
                a ha1 ha2,
              mapGet_mapSet_self]
          simp only [lookupSpec]
          rw [if_neg (by rw [matchingLogs_cons_pos a log logs ht ha]; simp)]
          cases hic : extractIC log with
          | none =>
            rw [firstIC_cons_pos_none a log logs ht ha hic]
            rfl
          | some i =>
            rw [firstIC_cons_pos_some a log logs i ht ha hic]
            rfl
        | some v =>
          have hva : v.address = a := mapGet_address m hm a v hg
          cases hvic : v.ic with
          | some j =>
            have hstep : discoverStep m log = m := by
              unfold discoverStep
              rw [if_pos ht]
              dsimp only
              rw [ha, if_pos ⟨ha1, ha2⟩, hg, if_neg (by simp [hvic])]
            rw [hstep, ih m hm a ha1 ha2, hg]
            simp only [lookupSpec]
            rw [hvic]
            rfl
          | none =>
            cases hic : extractIC log with
            | some i =>
              have hstep : discoverStep m log
                  = mapSet m a { address := a, ic := some i } := by
                unfold discoverStep
                rw [if_pos ht]
                dsimp only
                rw [ha, hic, if_pos ⟨ha1, ha2⟩, hg,
                    if_pos (Or.inr ⟨rfl, by simp [hvic]⟩)]
              rw [hstep,
                  ih (mapSet m a { address := a, ic := some i })
                    (fun p hp => by
                      rcases mem_mapSet _ _ _ p hp with hh | hh
                      · exact hm p hh
                      · subst hh; rfl)
                    a ha1 ha2,
                  mapGet_mapSet_self]
              simp only [lookupSpec]
              rw [hvic, firstIC_cons_pos_some a log logs i ht ha hic]
              rfl
            | none =>
              have hstep : discoverStep m log = m := by
                unfold discoverStep
                rw [if_pos ht]
                dsimp only
                rw [ha, hic, if_pos ⟨ha1, ha2⟩, hg, if_neg (by simp)]
              rw [hstep, ih m hm a ha1 ha2, hg]
              simp only [lookupSpec]
              rw [hvic, firstIC_cons_pos_none a log logs ht ha hic]
      · have hget : mapGet (discoverStep m log) a = mapGet m a := by
          unfold discoverStep
          dsimp only
          split_ifs with h1 h2 h3
          · exact mapGet_mapSet_ne m _ a _ (fun he => ha he.symm)
          all_goals rfl
        have hm' := discoverStep_addr m log hm
        rw [ih (discoverStep m log) hm' a ha1 ha2, hget,
            lookupSpec_congr (mapGet m a) a log logs (fun hc => ha hc.2)]
    · have hstep : discoverStep m log = m := by
        unfold discoverStep
        rw [if_neg ht]
      rw [hstep, ih m hm a ha1 ha2,
          lookupSpec_congr (mapGet m a) a log logs (fun hc => ht hc.1)]

/-- Invariant of the discovery map: unique keys, each value's address
equals its key, and no empty or zero-address key. -/
def MapInv (m : List (String × OnChainCampaign)) : Prop :=
  (m.map Prod.fst).Nodup ∧
  ∀ p ∈ m, p.2.address = p.1 ∧ p.1 ≠ "" ∧ p.1 ≠ zeroAddr

lemma mapSet_inv (m : List (String × OnChainCampaign)) (k : String) (v : OnChainCampaign)
    (hm : MapInv m) (hv : v.address = k) (hk1 : k ≠ "") (hk2 : k ≠ zeroAddr) :
    MapInv (mapSet m k v) := by
  constructor
  · by_cases h : k ∈ m.map Prod.fst
    · rw [mapSet_map_fst_mem m k v h]
      exact hm.1
    · rw [mapSet_map_fst_not_mem m k v h]
      exact List.Nodup.append hm.1 (List.nodup_singleton k) (by simpa using h)
  · intro q hq
    rcases mem_mapSet m k v q hq with h | h
    · exact hm.2 q h
    · subst h
      exact ⟨hv, hk1, hk2⟩

lemma discoverStep_inv (m : List (String × OnChainCampaign)) (log : Log)
    (hm : MapInv m) : MapInv (discoverStep m log) := by
  unfold discoverStep
  dsimp only
  split_ifs with h1 h2 h3
  · exact mapSet_inv m _ _ hm rfl h2.1 h2.2
  all_goals exact hm

lemma foldl_discoverStep_inv (logs : List Log) (m : List (String × OnChainCampaign))
    (hm : MapInv m) : MapInv (logs.foldl discoverStep m) := by
  induction logs generalizing m with
  | nil => exact hm
  | cons log logs ih => exact ih _ (discoverStep_inv m log hm)

lemma discoverStep_fixed_of (m : List (String × OnChainCampaign)) (log : Log)
    (hpresent : log.topics.getD 0 "" ∈ CAMPAIGN_TOPICS →
      extractAddr log ≠ "" → extractAddr log ≠ zeroAddr →
      ∃ w, mapGet m (extractAddr log) = some w ∧
        ((extractIC log).isSome → w.ic.isSome)) :
    discoverStep m log = m := by
  unfold discoverStep
  dsimp only
  split_ifs with h1 h2 h3
  · exfalso
    obtain ⟨w, hw, hwic⟩ := hpresent h1 h2.1 h2.2
    rcases h3 with h3 | ⟨hs, hb⟩
    · rw [hw] at h3
      exact Option.noConfusion h3
    · rw [hw] at hb
      have hwn : w.ic = none := by simpa using hb
      have hws := hwic hs
      rw [hwn] at hws
      simp at hws
  all_goals rfl

lemma foldl_fixed {α β : Type} (f : β → α → β) (b : β) (l : List α)
    (h : ∀ x ∈ l, f b x = b) : l.foldl f b = b := by
  induction l with
  | nil => rfl
  | cons x l ih =>
    rw [List.foldl_cons, h x (List.mem_cons_self x l)]
    exact ih (fun y hy => h y (List.mem_cons_of_mem x hy))

lemma foldl_factories_eq_join (fls : List (List Log))
    (m : List (String × OnChainCampaign)) :
    fls.foldl (fun m logs => logs.foldl discoverStep m) m
      = (fls.flatten).foldl discoverStep m := by
  induction fls generalizing m with
  | nil => rfl
  | cons l fls ih =>
    rw [List.foldl_cons, ih, List.flatten_cons, List.foldl_append]

/-- C6: on a fixed log set, discovery run twice yields the identical
campaign list; the discovered addresses are free of duplicates; the
zero address is discarded; and each discovered campaign carries the
first non-null content-source address ever seen among its logs. -/
theorem c6_discovery (factoryLogs : List (List Log)) :
    discoverOnChainCampaigns (factoryLogs ++ factoryLogs)
      = discoverOnChainCampaigns factoryLogs ∧
    ((discoverOnChainCampaigns factoryLogs).map OnChainCampaign.address).Nodup ∧
    (∀ c ∈ discoverOnChainCampaigns factoryLogs, c.address ≠ zeroAddr) ∧
    (∀ c ∈ discoverOnChainCampaigns factoryLogs,
      c.ic = firstIC c.address factoryLogs.flatten) := by
  have hinv : MapInv ((factoryLogs.flatten).foldl discoverStep []) :=
    foldl_discoverStep_inv _ _ ⟨List.nodup_nil, by simp⟩
  have hmaddr : ∀ p ∈ (factoryLogs.flatten).foldl discoverStep [], p.2.address = p.1 :=
    fun p hp => (hinv.2 p hp).1
  have hlookup : ∀ a : String, a ≠ "" → a ≠ zeroAddr →
      mapGet ((factoryLogs.flatten).foldl discoverStep []) a
        = lookupSpec none a factoryLogs.flatten := by
    intro a ha1 ha2
    exact discover_fold_mapGet factoryLogs.flatten [] (by simp) a ha1 ha2
  have hval : ∀ c ∈ discoverOnChainCampaigns factoryLogs,
      ∃ p ∈ (factoryLogs.flatten).foldl discoverStep [],
        p.2 = c ∧ p.1 = c.address ∧ c.address ≠ "" ∧ c.address ≠ zeroAddr := by
    intro c hc
    unfold discoverOnChainCampaigns at hc
    rw [foldl_factories_eq_join] at hc
    obtain ⟨p, hp, hpc⟩ := List.mem_map.1 hc
    obtain ⟨haddr, hne, hnz⟩ := hinv.2 p hp
    refine ⟨p, hp, hpc, ?_, ?_, ?_⟩
    · rw [← hpc, haddr]
    · rw [← hpc, haddr]; exact hne
    · rw [← hpc, haddr]; exact hnz
  refine ⟨?_, ?_, ?_, ?_⟩
  · -- idempotence: the second scan leaves the final map unchanged
    unfold discoverOnChainCampaigns
    rw [foldl_factories_eq_join, foldl_factories_eq_join, List.flatten_append,
        List.foldl_append]
    congr 1
    apply foldl_fixed
    intro L hL
    apply discoverStep_fixed_of
    intro h1 h2 h3
    have hm : L ∈ matchingLogs (extractAddr L) factoryLogs.flatten := by
      unfold matchingLogs
      rw [List.mem_filter]
      exact ⟨hL, by simp only [decide_eq_true_eq]; exact ⟨h1, trivial⟩⟩
    have hne : matchingLogs (extractAddr L) factoryLogs.flatten ≠ [] :=
      List.ne_nil_of_mem hm
    have hget : mapGet ((factoryLogs.flatten).foldl discoverStep []) (extractAddr L)
        = some { address := extractAddr L,
                 ic := firstIC (extractAddr L) factoryLogs.flatten } := by
      rw [hlookup (extractAddr L) h2 h3]
      simp only [lookupSpec]
      rw [if_neg hne]
    refine ⟨_, hget, ?_⟩
    intro hics
    obtain ⟨i, hi⟩ := Option.isSome_iff_exists.1 hics
    have hmem : i ∈ (matchingLogs (extractAddr L) factoryLogs.flatten).filterMap extractIC :=
      List.mem_filterMap.2 ⟨L, hm, hi⟩
    have hfne : (matchingLogs (extractAddr L) factoryLogs.flatten).filterMap extractIC ≠ [] :=
      List.ne_nil_of_mem hmem
    unfold firstIC
    cases hcase : (matchingLogs (extractAddr L) factoryLogs.flatten).filterMap extractIC with
    | nil => exact absurd hcase hfne
    | cons x xs => simp
  · -- no duplicate addresses
    unfold discoverOnChainCampaigns
    rw [foldl_factories_eq_join, List.map_map]
    have : ((factoryLogs.flatten).foldl discoverStep []).map (OnChainCampaign.address ∘ Prod.snd)
        = ((factoryLogs.flatten).foldl discoverStep []).map Prod.fst :=
      List.map_congr_left (fun p hp => hmaddr p hp)
    rw [this]
    exact hinv.1
  · -- zero address discarded
    intro c hc
    exact (hval c hc).choose_spec.2.2.2.2
  · -- first non-null content-source kept
    intro c hc
    obtain ⟨p, hp, hpc, hpa, hne, hnz⟩ := hval c hc
    have hg : mapGet ((factoryLogs.flatten).foldl discoverStep []) c.address = some c := by
      rw [← hpa, ← hpc]
      exact mapGet_of_mem _ hinv.1 p hp
    rw [hlookup c.address hne hnz] at hg
    simp only [lookupSpec] at hg
    by_cases hmt : matchingLogs c.address factoryLogs.flatten = []
    · rw [if_pos hmt] at hg
      exact Option.noConfusion hg
    · rw [if_neg hmt] at hg
      have h2 := Option.some.inj hg
      rw [← h2]

/-- A concrete CampaignCreated log for the C6 witness. -/
def c6Log : Log :=
  { topics := ["0xbb6e1a036316f8a54a4010c72f0adc5e7b714b15cff9045f280f3080b5fb5a60", "AB"],
    data := "" }

/-- Two factories reporting the same creation log. -/
def c6Logs : List (List Log) := [[c6Log], [c6Log]]

/-- Witness for C6: on the concrete log set, a double run equals a
single run, the campaign `0xab` is discovered exactly once, its address
is not the zero address, and its content-source is the first non-null
one seen (none here). -/
theorem c6_discovery_witness :
    discoverOnChainCampaigns (c6Logs ++ c6Logs) = discoverOnChainCampaigns c6Logs ∧
    discoverOnChainCampaigns c6Logs = [{ address := "0xab", ic := none }] ∧
    ({ address := "0xab", ic := none } : OnChainCampaign).address ≠ zeroAddr ∧
    ({ address := "0xab", ic := none } : OnChainCampaign).ic
      = firstIC "0xab" c6Logs.flatten := by
  obtain ⟨h1, -, h3, h4⟩ := c6_discovery c6Logs
  have hmem : ({ address := "0xab", ic := none } : OnChainCampaign)
      ∈ discoverOnChainCampaigns c6Logs := by decide
  exact ⟨h1, by decide, h3 _ hmem, h4 _ hmem⟩

end RallyTracker
